import Mathlib

/-!
Shallow embedding of the device-registry core (`device_registry/__init__.py`):
a `Repository` view over a shared persistent key-value store (a Python
`shelve`), the two read-time decoration functions, and the HTTP handler
bodies that enforce referential integrity.

Python strings are modelled as `List Char`; Python dicts (both the store
itself and the individual records) are modelled as association lists with
first-match lookup, in-place update and first-occurrence deletion, which
agrees with dict semantics on the duplicate-free states a dict can actually
take.  A Python operation that can raise (`d[k]` on a missing key,
`del d[k]`, string concatenation of a non-string) is modelled with `Option`,
`none` standing for the raised exception.  Reads from the shelf hand back a
value (shelve unpickles a fresh object per access, `writeback=False`), so
record values are plain immutable data here.
-/

/-- Python strings (keys, identifiers, field values). -/
abbrev Str := List Char

mutual

/-- A value stored in a record field: a string, Python `None`, a nested
record (a decorated device's `room`), or a list of records (a decorated
room's `devices`). -/
inductive Value where
  | str : Str → Value
  | null : Value
  | obj : Fields → Value
  | objlist : RecList → Value
deriving DecidableEq

/-- A record: a Python dict from field name to value, in insertion order. -/
inductive Fields where
  | nil : Fields
  | cons : Str → Value → Fields → Fields
deriving DecidableEq

/-- A list of records, as a `Value` payload. -/
inductive RecList where
  | nil : RecList
  | cons : Fields → RecList → RecList
deriving DecidableEq

end

/-- Python `d[k]` on a record, `none` when the field is absent (KeyError). -/
def Fields.get : Fields → Str → Option Value
  | .nil, _ => none
  | .cons k v rest, f => if k = f then some v else rest.get f

/-- Python `d[k] = v` on a record: overwrite in place, else append. -/
def Fields.set : Fields → Str → Value → Fields
  | .nil, f, v => .cons f v .nil
  | .cons k w rest, f, v =>
    if k = f then .cons k v rest else .cons k w (rest.set f v)

/-- Python `del d[k]` on a record, `none` when the field is absent. -/
def Fields.del : Fields → Str → Option Fields
  | .nil, _ => none
  | .cons k w rest, f =>
    if k = f then some rest else (rest.del f).map (.cons k w)

/-- The field names of a record, in order. -/
def Fields.keys : Fields → List Str
  | .nil => []
  | .cons k _ rest => k :: rest.keys

/-- Embed a meta-level list of records into a `RecList`. -/
def toRecList : List Fields → RecList
  | [] => .nil
  | f :: fs => .cons f (toRecList fs)

/-- The shared shelf: a persistent dict from string key to record. -/
abbrev Store := List (Str × Fields)

/-- Shelf read `shelf[key]`, `none` when the key is absent. -/
def storeGet : Store → Str → Option Fields
  | [], _ => none
  | (k, v) :: s, key => if k = key then some v else storeGet s key

/-- Shelf upsert `shelf[key] = value`. -/
def storeSet : Store → Str → Fields → Store
  | [], key, v => [(key, v)]
  | (k, w) :: s, key, v =>
    if k = key then (k, v) :: s else (k, w) :: storeSet s key v

/-- Shelf delete `del shelf[key]`, `none` when the key is absent
(the KeyError propagated to the caller). -/
def storeDel : Store → Str → Option Store
  | [], _ => none
  | (k, w) :: s, key =>
    if k = key then some s else (storeDel s key).map ((k, w) :: ·)

/-- The keys of the shelf, in order (`shelf.keys()`). -/
def storeKeys (s : Store) : List Str := s.map Prod.fst

/-- Well-formedness of a shelf state: a dict never holds a key twice. -/
def keysNodup (s : Store) : Prop := (storeKeys s).Nodup

instance (s : Store) : Decidable (keysNodup s) :=
  List.nodupDecidable (storeKeys s)

/-- The `'identifier'` field name. -/
def identKey : Str := "identifier".data

/-- The `'room_identifier'` field name. -/
def roomIdKey : Str := "room_identifier".data

/-- The `'room'` field name set by `decorate_with_room`. -/
def roomKey : Str := "room".data

/-- The `'devices'` field name set by `decorate_with_devices`. -/
def devicesKey : Str := "devices".data

/-- `Repository.__init__`: the stored key namespace is the collection name
with `':'` appended. -/
def Repository.mkPre (collection : Str) : Str := collection ++ [':']

/-- The key namespace of the device repository (`Repository(db, 'device')`). -/
def devicePre : Str := Repository.mkPre "device".data

/-- The key namespace of the room repository (`Repository(db, 'room')`). -/
def roomPre : Str := Repository.mkPre "room".data

/-- `Repository.find_all`: scan every key of the shared shelf, return the
record of every key carrying this repository's namespace marker. -/
def Repository.find_all (shelf : Store) (pre : Str) : List Fields :=
  ((storeKeys shelf).filter (fun k => pre.isPrefixOf k)).filterMap
    (fun k => storeGet shelf k)

/-- `Repository.find`: point lookup at `pre ++ identifier`; `none` is the
absent sentinel (the Python `None`), not an error. -/
def Repository.find (shelf : Store) (pre : Str) (identifier : Str) :
    Option Fields :=
  storeGet shelf (pre ++ identifier)

/-- The loop body of `Repository.find_by`: keep the records whose `key`
field equals `value`; `obj[key]` on a record lacking the field raises
(`none`). -/
def filterByField : List Fields → Str → Value → Option (List Fields)
  | [], _, _ => some []
  | r :: rs, key, value =>
    match r.get key with
    | none => none
    | some w =>
      match filterByField rs key value with
      | none => none
      | some rest => some (if w = value then r :: rest else rest)

/-- `Repository.find_by`: linear scan of `find_all` filtering on exact
field equality. -/
def Repository.find_by (shelf : Store) (pre : Str) (key : Str)
    (value : Value) : Option (List Fields) :=
  filterByField (Repository.find_all shelf pre) key value

/-- `Repository.save`: upsert at `pre ++ obj['identifier']`; raises
(`none`) when the record has no `identifier` field or it is not a string. -/
def Repository.save (shelf : Store) (pre : Str) (obj : Fields) :
    Option Store :=
  match obj.get identKey with
  | some (.str i) => some (storeSet shelf (pre ++ i) obj)
  | _ => none

/-- `Repository.delete`: `del shelf[pre ++ identifier]`; the KeyError on a
missing key propagates (`none`). -/
def Repository.delete (shelf : Store) (pre : Str) (identifier : Str) :
    Option Store :=
  storeDel shelf (pre ++ identifier)

/-- `decorate_with_room(room_repository, device)`: set `device['room']` to
the found room (Python `None` when absent), then delete
`device['room_identifier']`.  The store is threaded through to show the
function writes nothing to it; `none` is a raised exception (missing or
non-string `room_identifier`). -/
def decorate_with_room (shelf : Store) (pre : Str) (device : Fields) :
    Option (Fields × Store) :=
  match device.get roomIdKey with
  | some (.str rid) =>
    match
      (device.set roomKey
        (match Repository.find shelf pre rid with
         | some room => .obj room
         | none => .null)).del roomIdKey with
    | some d => some (d, shelf)
    | none => none
  | _ => none

/-- The strip loop of `decorate_with_devices`: delete `room_identifier`
from each fetched device. -/
def stripRoomId : List Fields → Option (List Fields)
  | [] => some []
  | d :: ds =>
    match d.del roomIdKey, stripRoomId ds with
    | some d2, some ds2 => some (d2 :: ds2)
    | _, _ => none

/-- `decorate_with_devices(device_repository, room)`: find the devices
whose `room_identifier` equals `room['identifier']`, strip that field from
each, and set the list into `room['devices']`.  The store is threaded
through to show the function writes nothing to it. -/
def decorate_with_devices (shelf : Store) (pre : Str) (room : Fields) :
    Option (Fields × Store) :=
  match room.get identKey with
  | none => none
  | some idv =>
    match Repository.find_by shelf pre roomIdKey idv with
    | none => none
    | some devices =>
      match stripRoomId devices with
      | none => none
      | some devices2 =>
        some (room.set devicesKey (.objlist (toRecList devices2)), shelf)

/-- The parsed body of `POST /devices`: `reqparse` guarantees all five
fields are present strings before the handler body runs. -/
structure DeviceArgs where
  identifier : Str
  name : Str
  device_type : Str
  controller_name : Str
  room_identifier : Str

/-- The record built from the parsed arguments of `POST /devices`. -/
def DeviceArgs.fields (a : DeviceArgs) : Fields :=
  .cons identKey (.str a.identifier)
    (.cons "name".data (.str a.name)
      (.cons "device_type".data (.str a.device_type)
        (.cons "controller_name".data (.str a.controller_name)
          (.cons roomIdKey (.str a.room_identifier) .nil))))

/-- `DeviceList.post`: reject with 400 when the referenced room does not
exist, otherwise save the device, re-fetch it, decorate it and answer 201.
Returns status, response record, and the resulting shelf ; `none` is an
uncaught exception. -/
def DeviceList.post (shelf : Store) (args : DeviceArgs) :
    Option (Nat × Option Fields × Store) :=
  match Repository.find shelf roomPre args.room_identifier with
  | none => some (400, none, shelf)
  | some _ =>
    match Repository.save shelf devicePre args.fields with
    | none => none
    | some shelf2 =>
      match Repository.find shelf2 devicePre args.identifier with
      | none => none
      | some device =>
        match decorate_with_room shelf2 roomPre device with
        | none => none
        | some (d, shelf3) => some (201, some d, shelf3)

/-- `Device.delete`: 404 when the device is absent, otherwise delete it
and answer 204. -/
def Device.delete (shelf : Store) (identifier : Str) :
    Option (Nat × Store) :=
  match Repository.find shelf devicePre identifier with
  | none => some (404, shelf)
  | some _ =>
    match Repository.delete shelf devicePre identifier with
    | none => none
    | some shelf2 => some (204, shelf2)

/-- `Room.delete`: 404 when the room is absent, 400 when a device still
references it, otherwise delete it and answer 204. -/
def Room.delete (shelf : Store) (identifier : Str) :
    Option (Nat × Store) :=
  match Repository.find shelf roomPre identifier with
  | none => some (404, shelf)
  | some _ =>
    match Repository.find_by shelf devicePre roomIdKey (.str identifier) with
    | none => none
    | some devices =>
      if devices ≠ [] then some (400, shelf)
      else
        match Repository.delete shelf roomPre identifier with
        | none => none
        | some shelf2 => some (204, shelf2)

/-! ## Dict lemmas for records -/

theorem Fields.get_set_self : ∀ (f : Fields) (k : Str) (v : Value),
    (f.set k v).get k = some v
  | .nil, k, v => by simp [Fields.set, Fields.get]
  | .cons a w rest, k, v => by
    by_cases h : a = k
    · subst h; simp [Fields.set, Fields.get]
    · simp [Fields.set, Fields.get, h, Fields.get_set_self rest k v]

theorem Fields.get_set_ne : ∀ (f : Fields) (k k' : Str) (v : Value),
    k' ≠ k → (f.set k v).get k' = f.get k'
  | .nil, k, k', v, h => by
    simp [Fields.set, Fields.get, Ne.symm h]
  | .cons a w rest, k, k', v, h => by
    by_cases ha : a = k
    · subst ha
      simp [Fields.set, Fields.get, Ne.symm h]
    · by_cases ha' : a = k'
      · subst ha'; simp [Fields.set, Fields.get, ha]
      · simp [Fields.set, Fields.get, ha, ha',
          Fields.get_set_ne rest k k' v h]

theorem Fields.del_eq_none_iff : ∀ (f : Fields) (k : Str),
    f.del k = none ↔ f.get k = none
  | .nil, k => by simp [Fields.del, Fields.get]
  | .cons a w rest, k => by
    by_cases h : a = k
    · simp [Fields.del, Fields.get, h]
    · simp [Fields.del, Fields.get, h, Option.map_eq_none',
        Fields.del_eq_none_iff rest k]

theorem Fields.get_eq_none_of_not_mem : ∀ (f : Fields) (k : Str),
    k ∉ f.keys → f.get k = none
  | .nil, k, _ => by simp [Fields.get]
  | .cons a w rest, k, h => by
    simp only [Fields.keys, List.mem_cons] at h
    push_neg at h
    simp [Fields.get, Ne.symm h.1,
      Fields.get_eq_none_of_not_mem rest k h.2]

theorem Fields.get_del_self : ∀ (f : Fields) (k : Str) (f' : Fields),
    f.keys.Nodup → f.del k = some f' → f'.get k = none
  | .nil, k, f', _, h => by simp [Fields.del] at h
  | .cons a w rest, k, f', hnd, h => by
    simp only [Fields.keys, List.nodup_cons] at hnd
    by_cases ha : a = k
    · subst ha
      simp only [Fields.del, if_pos rfl] at h
      cases h
      exact Fields.get_eq_none_of_not_mem _ _ hnd.1
    · simp only [Fields.del, if_neg ha] at h
      cases hrest : rest.del k with
      | none => simp [hrest] at h
      | some r' =>
        simp only [hrest, Option.map_some', Option.some.injEq] at h
        subst h
        simp [Fields.get, ha, Fields.get_del_self rest k r' hnd.2 hrest]

theorem Fields.get_del_ne : ∀ (f : Fields) (k k' : Str) (f' : Fields),
    k' ≠ k → f.del k = some f' → f'.get k' = f.get k'
  | .nil, k, k', f', _, h => by simp [Fields.del] at h
  | .cons a w rest, k, k', f', hne, h => by
    by_cases ha : a = k
    · subst ha
      simp only [Fields.del, if_pos rfl] at h
      cases h
      simp [Fields.get, Ne.symm hne]
    · simp only [Fields.del, if_neg ha] at h
      cases hrest : rest.del k with
      | none => simp [hrest] at h
      | some r' =>
        simp only [hrest, Option.map_some', Option.some.injEq] at h
        subst h
        by_cases ha' : a = k'
        · simp [Fields.get, ha']
        · simp [Fields.get, ha', Fields.get_del_ne rest k k' r' hne hrest]

theorem Fields.mem_keys_set : ∀ (f : Fields) (k x : Str) (v : Value),
    x ∈ (f.set k v).keys → x ∈ f.keys ∨ x = k
  | .nil, k, x, v => by simp [Fields.set, Fields.keys]
  | .cons a w rest, k, x, v => by
    by_cases ha : a = k
    · subst ha
      simp only [Fields.set, if_pos rfl, Fields.keys, List.mem_cons]
      exact fun h => Or.inl h
    · simp only [Fields.set, if_neg ha, Fields.keys, List.mem_cons]
      rintro (h | h)
      · exact Or.inl (Or.inl h)
      · rcases Fields.mem_keys_set rest k x v h with h' | h'
        · exact Or.inl (Or.inr h')
        · exact Or.inr h'

theorem Fields.keys_set_nodup : ∀ (f : Fields) (k : Str) (v : Value),
    f.keys.Nodup → (f.set k v).keys.Nodup
  | .nil, k, v, _ => by simp [Fields.set, Fields.keys]
  | .cons a w rest, k, v, h => by
    simp only [Fields.keys, List.nodup_cons] at h
    by_cases ha : a = k
    · subst ha
      simp only [Fields.set, if_pos rfl, Fields.keys, List.nodup_cons]
      exact h
    · simp only [Fields.set, if_neg ha, Fields.keys, List.nodup_cons]
      refine ⟨fun hmem => ?_, Fields.keys_set_nodup rest k v h.2⟩
      rcases Fields.mem_keys_set rest k a v hmem with h' | h'
      · exact h.1 h'
      · exact ha h'

/-! ## Dict lemmas for the shelf -/

theorem storeGet_set_self (s : Store) (k : Str) (v : Fields) :
    storeGet (storeSet s k v) k = some v := by
  induction s with
  | nil => simp [storeSet, storeGet]
  | cons e t ih =>
    obtain ⟨a, w⟩ := e
    by_cases h : a = k
    · subst h; simp [storeSet, storeGet]
    · simp [storeSet, storeGet, h, ih]

theorem storeGet_set_ne (s : Store) (k k' : Str) (v : Fields)
    (h : k' ≠ k) : storeGet (storeSet s k v) k' = storeGet s k' := by
  induction s with
  | nil => simp [storeSet, storeGet, Ne.symm h]
  | cons e t ih =>
    obtain ⟨a, w⟩ := e
    by_cases ha : a = k
    · subst ha; simp [storeSet, storeGet, Ne.symm h]
    · by_cases ha' : a = k'
      · subst ha'; simp [storeSet, storeGet, ha]
      · simp [storeSet, storeGet, ha, ha', ih]

theorem storeDel_eq_none_iff (s : Store) (k : Str) :
    storeDel s k = none ↔ storeGet s k = none := by
  induction s with
  | nil => simp [storeDel, storeGet]
  | cons e t ih =>
    obtain ⟨a, w⟩ := e
    by_cases h : a = k
    · simp [storeDel, storeGet, h]
    · simp [storeDel, storeGet, h, Option.map_eq_none', ih]

theorem storeGet_eq_none_of_not_mem (s : Store) (k : Str)
    (h : k ∉ storeKeys s) : storeGet s k = none := by
  induction s with
  | nil => simp [storeGet]
  | cons e t ih =>
    obtain ⟨a, w⟩ := e
    simp only [storeKeys, List.map_cons, List.mem_cons] at h
    push_neg at h
    simpa [storeGet, Ne.symm h.1] using ih h.2

theorem storeGet_del_self (s : Store) (k : Str) :
    ∀ s', keysNodup s → storeDel s k = some s' → storeGet s' k = none := by
  induction s with
  | nil => intro s' _ h; simp [storeDel] at h
  | cons e t ih =>
    obtain ⟨a, w⟩ := e
    intro s' hnd h
    simp only [keysNodup, storeKeys, List.map_cons, List.nodup_cons] at hnd
    by_cases ha : a = k
    · subst ha
      simp only [storeDel, if_pos rfl] at h
      cases h
      exact storeGet_eq_none_of_not_mem _ _ hnd.1
    · simp only [storeDel, if_neg ha] at h
      cases hrest : storeDel t k with
      | none => simp [hrest] at h
      | some t' =>
        simp only [hrest, Option.map_some', Option.some.injEq] at h
        subst h
        simp [storeGet, ha, ih t' hnd.2 hrest]

theorem storeGet_del_ne (s : Store) (k k' : Str) (hne : k' ≠ k) :
    ∀ s', storeDel s k = some s' → storeGet s' k' = storeGet s k' := by
  induction s with
  | nil => intro s' h; simp [storeDel] at h
  | cons e t ih =>
    obtain ⟨a, w⟩ := e
    intro s' h
    by_cases ha : a = k
    · subst ha
      simp only [storeDel, if_pos rfl] at h
      cases h
      simp [storeGet, Ne.symm hne]
    · simp only [storeDel, if_neg ha] at h
      cases hrest : storeDel t k with
      | none => simp [hrest] at h
      | some t' =>
        simp only [hrest, Option.map_some', Option.some.injEq] at h
        subst h
        by_cases ha' : a = k'
        · simp [storeGet, ha']
        · simp [storeGet, ha', ih t' hrest]

theorem storeSet_cons_self (a : Str) (w v : Fields) (t : Store) :
    storeSet ((a, w) :: t) a v = (a, v) :: t := by
  simp [storeSet]

theorem mem_storeKeys_set (s : Store) (k x : Str) (v : Fields) :
    x ∈ storeKeys (storeSet s k v) → x ∈ storeKeys s ∨ x = k := by
  induction s with
  | nil => simp [storeSet, storeKeys]
  | cons e t ih =>
    obtain ⟨a, w⟩ := e
    by_cases ha : a = k
    · subst ha
      rw [storeSet_cons_self]
      simp only [storeKeys, List.map_cons, List.mem_cons]
      exact fun h => Or.inl h
    · simp only [storeSet, if_neg ha, storeKeys, List.map_cons,
        List.mem_cons]
      rintro (h | h)
      · exact Or.inl (Or.inl h)
      · rcases ih h with h' | h'
        · exact Or.inl (Or.inr h')
        · exact Or.inr h'

theorem keysNodup_storeSet (s : Store) (k : Str) (v : Fields)
    (h : keysNodup s) : keysNodup (storeSet s k v) := by
  induction s with
  | nil => simp [storeSet, keysNodup, storeKeys]
  | cons e t ih =>
    obtain ⟨a, w⟩ := e
    simp only [keysNodup, storeKeys, List.map_cons, List.nodup_cons] at h
    by_cases ha : a = k
    · subst ha
      rw [keysNodup, storeSet_cons_self]
      simp only [storeKeys, List.map_cons, List.nodup_cons]
      exact h
    · simp only [keysNodup, storeSet, if_neg ha, storeKeys,
        List.map_cons, List.nodup_cons]
      refine ⟨fun hmem => ?_, ih h.2⟩
      rcases mem_storeKeys_set t k a v hmem with h' | h'
      · exact h.1 h'
      · exact ha h'

/-! ## Characterizing find_all -/

theorem filterMap_storeGet_cons (s : Store) (k : Str) (v : Fields)
    (L : List Str) (h : k ∉ L) :
    L.filterMap (fun x => storeGet ((k, v) :: s) x)
      = L.filterMap (fun x => storeGet s x) := by
  induction L with
  | nil => simp
  | cons x xs ih =>
    simp only [List.mem_cons] at h
    push_neg at h
    rw [List.filterMap_cons, List.filterMap_cons]
    have hx : storeGet ((k, v) :: s) x = storeGet s x := by
      simp [storeGet, h.1]
    rw [hx, ih h.2]

theorem find_all_cons (k : Str) (v : Fields) (t : Store) (pre : Str)
    (hk : k ∉ storeKeys t) :
    Repository.find_all ((k, v) :: t) pre
      = (if pre.isPrefixOf k then [v] else []) ++ Repository.find_all t pre := by
  have hsub : k ∉ (storeKeys t).filter (fun x => pre.isPrefixOf x) :=
    fun hmem => hk (List.mem_of_mem_filter hmem)
  have hkeys : storeKeys ((k, v) :: t) = k :: storeKeys t := rfl
  by_cases hp : pre.isPrefixOf k
  · calc Repository.find_all ((k, v) :: t) pre
        = (k :: (storeKeys t).filter (fun x => pre.isPrefixOf x)).filterMap
            (fun x => storeGet ((k, v) :: t) x) := by
          simp only [Repository.find_all, hkeys, List.filter_cons, hp,
            if_pos]
      _ = v :: ((storeKeys t).filter (fun x => pre.isPrefixOf x)).filterMap
            (fun x => storeGet ((k, v) :: t) x) := by
          rw [List.filterMap_cons]
          have : storeGet ((k, v) :: t) k = some v := by simp [storeGet]
          rw [this]
      _ = v :: Repository.find_all t pre := by
          rw [filterMap_storeGet_cons t k v _ hsub]; rfl
      _ = (if pre.isPrefixOf k then [v] else []) ++ Repository.find_all t pre := by
          rw [if_pos hp, List.singleton_append]
  · have hp' : (pre.isPrefixOf k) = false := Bool.eq_false_iff.mpr hp
    calc Repository.find_all ((k, v) :: t) pre
        = ((storeKeys t).filter (fun x => pre.isPrefixOf x)).filterMap
            (fun x => storeGet ((k, v) :: t) x) := by
          rw [Repository.find_all, hkeys, List.filter_cons]
          rw [show ((if (pre.isPrefixOf k) = true
                then k :: (storeKeys t).filter (fun x => pre.isPrefixOf x)
                else (storeKeys t).filter (fun x => pre.isPrefixOf x)))
              = (storeKeys t).filter (fun x => pre.isPrefixOf x)
            from if_neg (by simp [hp'])]
      _ = Repository.find_all t pre := by
          rw [filterMap_storeGet_cons t k v _ hsub]; rfl
      _ = (if pre.isPrefixOf k then [v] else []) ++ Repository.find_all t pre := by
          rw [if_neg hp, List.nil_append]

theorem find_all_eq_entries (shelf : Store) (pre : Str)
    (hnd : keysNodup shelf) :
    Repository.find_all shelf pre
      = shelf.filterMap
          (fun e => if pre.isPrefixOf e.1 then some e.2 else none) := by
  induction shelf with
  | nil => simp [Repository.find_all, storeKeys]
  | cons e t ih =>
    obtain ⟨k, v⟩ := e
    simp only [keysNodup, storeKeys, List.map_cons, List.nodup_cons] at hnd
    rw [find_all_cons k v t pre hnd.1, ih hnd.2, List.filterMap_cons]
    by_cases hp : pre.isPrefixOf k
    · simp [hp]
    · simp [hp]

theorem entries_filterMap_storeSet (s : Store) (key : Str) (v : Fields)
    (pre : Str) (h : ¬ pre.isPrefixOf key) :
    (storeSet s key v).filterMap
        (fun e => if pre.isPrefixOf e.1 then some e.2 else none)
      = s.filterMap
          (fun e => if pre.isPrefixOf e.1 then some e.2 else none) := by
  induction s with
  | nil =>
    show List.filterMap _ [(key, v)] = List.filterMap _ []
    rw [List.filterMap_cons]
    rw [show (if pre.isPrefixOf (key, v).1 then some (key, v).2 else none)
          = none from if_neg h]
  | cons e t ih =>
    obtain ⟨a, w⟩ := e
    by_cases ha : a = key
    · subst ha
      rw [storeSet_cons_self, List.filterMap_cons, List.filterMap_cons]
      rw [show (if pre.isPrefixOf (a, v).1 then some (a, v).2 else none)
            = none from if_neg h]
      rw [show (if pre.isPrefixOf (a, w).1 then some (a, w).2 else none)
            = none from if_neg h]
    · rw [show storeSet ((a, w) :: t) key v = (a, w) :: storeSet t key v
            from by simp [storeSet, ha]]
      rw [List.filterMap_cons, List.filterMap_cons, ih]

/-! ## Characterizing find_by -/

theorem filterByField_eq_filter (l : List Fields) (f : Str) (v : Value)
    (h : ∀ r ∈ l, (Fields.get r f).isSome) :
    filterByField l f v
      = some (l.filter (fun r => decide (r.get f = some v))) := by
  induction l with
  | nil => simp [filterByField]
  | cons r rs ih =>
    have hr : (r.get f).isSome := h r (List.mem_cons_self r rs)
    obtain ⟨w, hw⟩ := Option.isSome_iff_exists.mp hr
    have ihs := ih (fun x hx => h x (List.mem_cons_of_mem r hx))
    by_cases hv : w = v
    · subst hv
      simp [filterByField, hw, ihs, List.filter_cons]
    · simp [filterByField, hw, ihs, List.filter_cons, hv]

theorem filterByField_eq_none (l : List Fields) (f : Str) (v : Value)
    (r : Fields) (hr : r ∈ l) (hn : r.get f = none) :
    filterByField l f v = none := by
  induction l with
  | nil => simp at hr
  | cons x xs ih =>
    rcases List.mem_cons.mp hr with h | h
    · subst h; simp [filterByField, hn]
    · simp only [filterByField]
      cases x.get f with
      | none => rfl
      | some w => rw [ih h]

/-! ## The two key namespaces never collide -/

theorem devicePre_eq : devicePre = ['d', 'e', 'v', 'i', 'c', 'e', ':'] := rfl

theorem roomPre_eq : roomPre = ['r', 'o', 'o', 'm', ':'] := rfl

theorem isPrefixOf_append_left (p l : Str) :
    p.isPrefixOf (p ++ l) = true := by
  induction p with
  | nil => cases l <;> rfl
  | cons c cs ih => simp [List.isPrefixOf, ih]

theorem roomPre_not_in_device_keys (l : Str) :
    roomPre.isPrefixOf (devicePre ++ l) = false := rfl

theorem devicePre_not_in_room_keys (l : Str) :
    devicePre.isPrefixOf (roomPre ++ l) = false := rfl

theorem roomPre_append_ne_devicePre_append (a b : Str) :
    roomPre ++ a ≠ devicePre ++ b := by
  intro h
  rw [roomPre_eq, devicePre_eq, List.cons_append, List.cons_append] at h
  injection h with h1 _
  exact absurd h1 (by decide)

/-! ## Claim theorems -/

/-- C1: Repository round-trip — for every record `r` with a populated
string `identifier` field, after `repo.save(r)` succeeds,
`repo.find(r['identifier'])` on the resulting store returns a record
equal to `r`. -/
theorem spec_save_find_roundtrip (shelf s2 : Store) (pre i : Str)
    (r : Fields) (hid : r.get identKey = some (.str i))
    (hsave : Repository.save shelf pre r = some s2) :
    Repository.find s2 pre i = some r := by
  rw [Repository.save, hid] at hsave
  have hs : storeSet shelf (pre ++ i) r = s2 := Option.some.inj hsave
  subst hs
  exact storeGet_set_self shelf (pre ++ i) r

theorem spec_save_find_roundtrip_witness :
    (Fields.cons identKey (.str ['a']) .nil).get identKey
        = some (.str ['a'])
    ∧ Repository.save [] devicePre (Fields.cons identKey (.str ['a']) .nil)
        = some [(devicePre ++ ['a'], Fields.cons identKey (.str ['a']) .nil)]
    ∧ Repository.find
        [(devicePre ++ ['a'], Fields.cons identKey (.str ['a']) .nil)]
        devicePre ['a']
        = some (Fields.cons identKey (.str ['a']) .nil) :=
  ⟨by decide, by decide,
    spec_save_find_roundtrip []
      [(devicePre ++ ['a'], Fields.cons identKey (.str ['a']) .nil)]
      devicePre ['a'] (Fields.cons identKey (.str ['a']) .nil)
      (by decide) (by decide)⟩

/-- C2: find_by correctness — when every record of the collection carries
the queried field, `find_by(field, value)` returns exactly the records of
`find_all` whose field equals the value, and no others. -/
theorem spec_find_by_correct (shelf : Store) (pre f : Str) (v : Value)
    (h : ∀ r ∈ Repository.find_all shelf pre, (Fields.get r f).isSome) :
    Repository.find_by shelf pre f v
      = some ((Repository.find_all shelf pre).filter
          (fun r => decide (r.get f = some v))) :=
  filterByField_eq_filter _ f v h

theorem spec_find_by_correct_witness :
    (∀ r ∈ Repository.find_all
        [(devicePre ++ ['a'],
            Fields.cons identKey (.str ['a'])
              (Fields.cons roomIdKey (.str ['x']) .nil)),
         (devicePre ++ ['b'],
            Fields.cons identKey (.str ['b'])
              (Fields.cons roomIdKey (.str ['y']) .nil))] devicePre,
        (Fields.get r roomIdKey).isSome)
    ∧ Repository.find_by
        [(devicePre ++ ['a'],
            Fields.cons identKey (.str ['a'])
              (Fields.cons roomIdKey (.str ['x']) .nil)),
         (devicePre ++ ['b'],
            Fields.cons identKey (.str ['b'])
              (Fields.cons roomIdKey (.str ['y']) .nil))]
        devicePre roomIdKey (.str ['x'])
      = some ((Repository.find_all
          [(devicePre ++ ['a'],
              Fields.cons identKey (.str ['a'])
                (Fields.cons roomIdKey (.str ['x']) .nil)),
           (devicePre ++ ['b'],
              Fields.cons identKey (.str ['b'])
                (Fields.cons roomIdKey (.str ['y']) .nil))] devicePre).filter
          (fun r => decide (r.get roomIdKey = some (.str ['x'])))) :=
  ⟨by decide, spec_find_by_correct
    [(devicePre ++ ['a'],
        Fields.cons identKey (.str ['a'])
          (Fields.cons roomIdKey (.str ['x']) .nil)),
     (devicePre ++ ['b'],
        Fields.cons identKey (.str ['b'])
          (Fields.cons roomIdKey (.str ['y']) .nil))]
    devicePre roomIdKey (.str ['x']) (by decide)⟩

/-- C5: Referential rejection with atomicity — when no room with the
referenced identifier exists, `POST /devices` answers 400 with no payload
and the store it returns is the store it was given, unchanged. -/
theorem spec_referential_rejection (shelf : Store) (args : DeviceArgs)
    (habs : Repository.find shelf roomPre args.room_identifier = none) :
    DeviceList.post shelf args = some (400, none, shelf) := by
  rw [DeviceList.post, habs]

theorem spec_referential_rejection_witness :
    Repository.find [] roomPre ['n'] = none
    ∧ DeviceList.post []
        { identifier := ['d'], name := ['n'], device_type := ['t'],
          controller_name := ['c'], room_identifier := ['n'] }
      = some (400, none, []) :=
  ⟨by decide, spec_referential_rejection []
    { identifier := ['d'], name := ['n'], device_type := ['t'],
      controller_name := ['c'], room_identifier := ['n'] } (by decide)⟩

/-- C7: Delete-then-find — for an identifier present in the collection,
`delete` succeeds; on the resulting store `find` returns the absent
sentinel and a second `delete` fails with the propagated not-found
error. -/
theorem spec_delete_then_find (shelf : Store) (pre i : Str) (r : Fields)
    (hnd : keysNodup shelf)
    (hfind : Repository.find shelf pre i = some r) :
    ∃ s2, Repository.delete shelf pre i = some s2
      ∧ Repository.find s2 pre i = none
      ∧ Repository.delete s2 pre i = none := by
  have hget : storeGet shelf (pre ++ i) = some r := hfind
  cases hd : storeDel shelf (pre ++ i) with
  | none =>
    rw [storeDel_eq_none_iff, hget] at hd
    exact Option.noConfusion hd
  | some s2 =>
    refine ⟨s2, hd, ?_, ?_⟩
    · exact storeGet_del_self shelf (pre ++ i) s2 hnd hd
    · rw [Repository.delete, storeDel_eq_none_iff]
      exact storeGet_del_self shelf (pre ++ i) s2 hnd hd

theorem spec_delete_then_find_witness :
    keysNodup [(devicePre ++ ['a'], Fields.cons identKey (.str ['a']) .nil)]
    ∧ Repository.find
        [(devicePre ++ ['a'], Fields.cons identKey (.str ['a']) .nil)]
        devicePre ['a']
      = some (Fields.cons identKey (.str ['a']) .nil)
    ∧ (∃ s2, Repository.delete
          [(devicePre ++ ['a'], Fields.cons identKey (.str ['a']) .nil)]
          devicePre ['a'] = some s2
        ∧ Repository.find s2 devicePre ['a'] = none
        ∧ Repository.delete s2 devicePre ['a'] = none) :=
  ⟨by decide, by decide,
    spec_delete_then_find
      [(devicePre ++ ['a'], Fields.cons identKey (.str ['a']) .nil)]
      devicePre ['a'] (Fields.cons identKey (.str ['a']) .nil)
      (by decide) (by decide)⟩

/-- C9: find_by missing-field failure — when a scanned record of the
collection lacks the queried field, `find_by` propagates the access error
instead of skipping the record. -/
theorem spec_find_by_missing_field (shelf : Store) (pre f : Str)
    (v : Value) (r : Fields) (hmem : r ∈ Repository.find_all shelf pre)
    (hmiss : r.get f = none) :
    Repository.find_by shelf pre f v = none :=
  filterByField_eq_none _ f v r hmem hmiss

theorem spec_find_by_missing_field_witness :
    (Fields.cons identKey (.str ['a']) .nil)
        ∈ Repository.find_all
            [(devicePre ++ ['a'], Fields.cons identKey (.str ['a']) .nil)]
            devicePre
    ∧ (Fields.cons identKey (.str ['a']) .nil).get roomIdKey = none
    ∧ Repository.find_by
        [(devicePre ++ ['a'], Fields.cons identKey (.str ['a']) .nil)]
        devicePre roomIdKey (.str ['x']) = none :=
  ⟨by decide, by decide,
    spec_find_by_missing_field
      [(devicePre ++ ['a'], Fields.cons identKey (.str ['a']) .nil)]
      devicePre roomIdKey (.str ['x'])
      (Fields.cons identKey (.str ['a']) .nil) (by decide) (by decide)⟩

/-- C10: Single-key frame of mutations — `save` writes exactly the key
`pre ++ r['identifier']` and leaves every other key of the shared store
unchanged; a successful `delete` removes exactly the key
`pre ++ identifier` and leaves every other key unchanged. -/
theorem spec_mutation_frame (shelf s2 : Store) (pre i i' : Str)
    (r : Fields) (hnd : keysNodup shelf)
    (hid : r.get identKey = some (.str i))
    (hdel : Repository.delete shelf pre i' = some s2) :
    (Repository.save shelf pre r = some (storeSet shelf (pre ++ i) r)
      ∧ storeGet (storeSet shelf (pre ++ i) r) (pre ++ i) = some r
      ∧ ∀ k, k ≠ pre ++ i →
          storeGet (storeSet shelf (pre ++ i) r) k = storeGet shelf k)
    ∧ (storeGet s2 (pre ++ i') = none
      ∧ ∀ k, k ≠ pre ++ i' → storeGet s2 k = storeGet shelf k) := by
  refine ⟨⟨?_, storeGet_set_self _ _ _,
      fun k hk => storeGet_set_ne shelf (pre ++ i) k r hk⟩,
    storeGet_del_self _ _ s2 hnd hdel,
    fun k hk => storeGet_del_ne shelf (pre ++ i') k hk s2 hdel⟩
  rw [Repository.save, hid]

theorem spec_mutation_frame_witness :
    keysNodup [(devicePre ++ ['b'], Fields.cons identKey (.str ['b']) .nil)]
    ∧ (Fields.cons identKey (.str ['a']) .nil).get identKey
        = some (.str ['a'])
    ∧ Repository.delete
        [(devicePre ++ ['b'], Fields.cons identKey (.str ['b']) .nil)]
        devicePre ['b'] = some []
    ∧ ((Repository.save
          [(devicePre ++ ['b'], Fields.cons identKey (.str ['b']) .nil)]
          devicePre (Fields.cons identKey (.str ['a']) .nil)
        = some (storeSet
            [(devicePre ++ ['b'], Fields.cons identKey (.str ['b']) .nil)]
            (devicePre ++ ['a']) (Fields.cons identKey (.str ['a']) .nil))
      ∧ storeGet (storeSet
            [(devicePre ++ ['b'], Fields.cons identKey (.str ['b']) .nil)]
            (devicePre ++ ['a']) (Fields.cons identKey (.str ['a']) .nil))
          (devicePre ++ ['a'])
        = some (Fields.cons identKey (.str ['a']) .nil)
      ∧ ∀ k, k ≠ devicePre ++ ['a'] →
          storeGet (storeSet
              [(devicePre ++ ['b'],
                  Fields.cons identKey (.str ['b']) .nil)]
              (devicePre ++ ['a'])
              (Fields.cons identKey (.str ['a']) .nil)) k
            = storeGet
                [(devicePre ++ ['b'],
                    Fields.cons identKey (.str ['b']) .nil)] k)
    ∧ (storeGet [] (devicePre ++ ['b']) = none
      ∧ ∀ k, k ≠ devicePre ++ ['b'] →
          storeGet ([] : Store) k
            = storeGet
                [(devicePre ++ ['b'],
                    Fields.cons identKey (.str ['b']) .nil)] k)) :=
  ⟨by decide, by decide, by decide,
    spec_mutation_frame
      [(devicePre ++ ['b'], Fields.cons identKey (.str ['b']) .nil)]
      [] devicePre ['a'] ['b'] (Fields.cons identKey (.str ['a']) .nil)
      (by decide) (by decide) (by decide)⟩

/-! ## Scenario computations -/

theorem find_all_single_device (did : Str) (D1 : Fields) :
    Repository.find_all [(devicePre ++ did, D1)] devicePre = [D1] := by
  rw [find_all_cons (devicePre ++ did) D1 [] devicePre (by simp [storeKeys])]
  simp [isPrefixOf_append_left, Repository.find_all, storeKeys]

theorem find_all_device_pair (rid did : Str) (R1 D1 : Fields) :
    Repository.find_all [(roomPre ++ rid, R1), (devicePre ++ did, D1)]
      devicePre = [D1] := by
  have h1 : (roomPre ++ rid) ∉ storeKeys [(devicePre ++ did, D1)] := by
    simp only [storeKeys, List.map_cons, List.map_nil, List.mem_singleton]
    exact roomPre_append_ne_devicePre_append rid did
  rw [find_all_cons _ _ _ _ h1, find_all_single_device did D1]
  simp [devicePre_not_in_room_keys rid]

theorem find_all_single_room (rid : Str) (R1 : Fields) :
    Repository.find_all [(roomPre ++ rid, R1)] devicePre = [] := by
  rw [find_all_cons (roomPre ++ rid) R1 [] devicePre (by simp [storeKeys])]
  simp [devicePre_not_in_room_keys rid, Repository.find_all, storeKeys]

theorem decorate_with_room_spec (shelf : Store) (pre : Str)
    (device : Fields) (rid : Str)
    (hrid : device.get roomIdKey = some (.str rid)) :
    decorate_with_room shelf pre device
      = match (device.set roomKey
            (match Repository.find shelf pre rid with
             | some room => Value.obj room
             | none => Value.null)).del roomIdKey with
        | some d => some (d, shelf)
        | none => none := by
  rw [decorate_with_room, hrid]

/-- C8: Prefix isolation — saving a record through the device repository
leaves the room repository's `find_all` result unchanged, so a record the
room view did not already show never appears in it, even when identifiers
collide across the two collections. -/
theorem spec_collection_isolation (shelf s2 : Store) (r : Fields)
    (hnd : keysNodup shelf)
    (hsave : Repository.save shelf devicePre r = some s2) :
    Repository.find_all s2 roomPre = Repository.find_all shelf roomPre
    ∧ (r ∉ Repository.find_all shelf roomPre →
        r ∉ Repository.find_all s2 roomPre) := by
  rw [Repository.save] at hsave
  cases hg : r.get identKey with
  | none => rw [hg] at hsave; exact Option.noConfusion hsave
  | some v =>
    cases v with
    | null => rw [hg] at hsave; exact Option.noConfusion hsave
    | obj f => rw [hg] at hsave; exact Option.noConfusion hsave
    | objlist l => rw [hg] at hsave; exact Option.noConfusion hsave
    | str i =>
      rw [hg] at hsave
      have hs : storeSet shelf (devicePre ++ i) r = s2 :=
        Option.some.inj hsave
      subst hs
      have h1 : Repository.find_all (storeSet shelf (devicePre ++ i) r)
          roomPre = Repository.find_all shelf roomPre := by
        rw [find_all_eq_entries _ _ (keysNodup_storeSet shelf _ r hnd),
          find_all_eq_entries _ _ hnd]
        exact entries_filterMap_storeSet shelf _ r roomPre
          (by simp [roomPre_not_in_device_keys])
      exact ⟨h1, fun hm => by rw [h1]; exact hm⟩

theorem spec_collection_isolation_witness :
    keysNodup [(roomPre ++ ['a'], Fields.cons identKey (.str ['a']) .nil)]
    ∧ Repository.save
        [(roomPre ++ ['a'], Fields.cons identKey (.str ['a']) .nil)]
        devicePre
        (Fields.cons identKey (.str ['a'])
          (Fields.cons roomIdKey (.str ['a']) .nil))
      = some [(roomPre ++ ['a'], Fields.cons identKey (.str ['a']) .nil),
          (devicePre ++ ['a'],
            Fields.cons identKey (.str ['a'])
              (Fields.cons roomIdKey (.str ['a']) .nil))]
    ∧ (Repository.find_all
          [(roomPre ++ ['a'], Fields.cons identKey (.str ['a']) .nil),
           (devicePre ++ ['a'],
              Fields.cons identKey (.str ['a'])
                (Fields.cons roomIdKey (.str ['a']) .nil))] roomPre
        = Repository.find_all
            [(roomPre ++ ['a'], Fields.cons identKey (.str ['a']) .nil)]
            roomPre
      ∧ ((Fields.cons identKey (.str ['a'])
            (Fields.cons roomIdKey (.str ['a']) .nil))
            ∉ Repository.find_all
                [(roomPre ++ ['a'], Fields.cons identKey (.str ['a']) .nil)]
                roomPre →
          (Fields.cons identKey (.str ['a'])
              (Fields.cons roomIdKey (.str ['a']) .nil))
            ∉ Repository.find_all
                [(roomPre ++ ['a'],
                    Fields.cons identKey (.str ['a']) .nil),
                 (devicePre ++ ['a'],
                    Fields.cons identKey (.str ['a'])
                      (Fields.cons roomIdKey (.str ['a']) .nil))]
                roomPre)) :=
  ⟨by decide, by decide,
    spec_collection_isolation
      [(roomPre ++ ['a'], Fields.cons identKey (.str ['a']) .nil)]
      [(roomPre ++ ['a'], Fields.cons identKey (.str ['a']) .nil),
       (devicePre ++ ['a'],
          Fields.cons identKey (.str ['a'])
            (Fields.cons roomIdKey (.str ['a']) .nil))]
      (Fields.cons identKey (.str ['a'])
        (Fields.cons roomIdKey (.str ['a']) .nil))
      (by decide) (by decide)⟩

/-- C4: Decoration leaves the persisted state unchanged — for a device
fetched from the store, `decorate_with_room` writes nothing back: the
store it returns is the store it was given, a subsequent `find` of the
same identifier still returns the original record whose
`room_identifier` field is intact, while only the decorated in-memory
copy has the field removed. -/
theorem spec_decoration_frame (shelf s2 : Store) (i rid : Str)
    (device dec : Fields) (hnd : device.keys.Nodup)
    (hfind : Repository.find shelf devicePre i = some device)
    (hrid : device.get roomIdKey = some (.str rid))
    (hdec : decorate_with_room shelf roomPre device = some (dec, s2)) :
    s2 = shelf
    ∧ Repository.find s2 devicePre i = some device
    ∧ device.get roomIdKey = some (.str rid)
    ∧ dec.get roomIdKey = none := by
  rw [decorate_with_room_spec shelf roomPre device rid hrid] at hdec
  cases hdel : (device.set roomKey
      (match Repository.find shelf roomPre rid with
       | some room => Value.obj room
       | none => Value.null)).del roomIdKey with
  | none => rw [hdel] at hdec; exact Option.noConfusion hdec
  | some d =>
    rw [hdel] at hdec
    have hpair : (d, shelf) = (dec, s2) := Option.some.inj hdec
    have h1 : d = dec := congrArg Prod.fst hpair
    have h2 : shelf = s2 := congrArg Prod.snd hpair
    subst h1
    subst h2
    exact ⟨rfl, hfind, hrid,
      Fields.get_del_self _ roomIdKey d
        (Fields.keys_set_nodup device roomKey _ hnd) hdel⟩

theorem spec_decoration_frame_witness :
    (Fields.cons identKey (.str ['a'])
        (Fields.cons roomIdKey (.str ['r']) .nil)).keys.Nodup
    ∧ Repository.find
        [(devicePre ++ ['a'],
            Fields.cons identKey (.str ['a'])
              (Fields.cons roomIdKey (.str ['r']) .nil)),
         (roomPre ++ ['r'], Fields.cons identKey (.str ['r']) .nil)]
        devicePre ['a']
      = some (Fields.cons identKey (.str ['a'])
          (Fields.cons roomIdKey (.str ['r']) .nil))
    ∧ (Fields.cons identKey (.str ['a'])
        (Fields.cons roomIdKey (.str ['r']) .nil)).get roomIdKey
      = some (.str ['r'])
    ∧ decorate_with_room
        [(devicePre ++ ['a'],
            Fields.cons identKey (.str ['a'])
              (Fields.cons roomIdKey (.str ['r']) .nil)),
         (roomPre ++ ['r'], Fields.cons identKey (.str ['r']) .nil)]
        roomPre
        (Fields.cons identKey (.str ['a'])
          (Fields.cons roomIdKey (.str ['r']) .nil))
      = some (Fields.cons identKey (.str ['a'])
            (Fields.cons roomKey
              (.obj (Fields.cons identKey (.str ['r']) .nil)) .nil),
          [(devicePre ++ ['a'],
              Fields.cons identKey (.str ['a'])
                (Fields.cons roomIdKey (.str ['r']) .nil)),
           (roomPre ++ ['r'], Fields.cons identKey (.str ['r']) .nil)])
    ∧ ([(devicePre ++ ['a'],
            Fields.cons identKey (.str ['a'])
              (Fields.cons roomIdKey (.str ['r']) .nil)),
        (roomPre ++ ['r'], Fields.cons identKey (.str ['r']) .nil)]
          : Store)
      = [(devicePre ++ ['a'],
            Fields.cons identKey (.str ['a'])
              (Fields.cons roomIdKey (.str ['r']) .nil)),
         (roomPre ++ ['r'], Fields.cons identKey (.str ['r']) .nil)]
    ∧ (Fields.cons identKey (.str ['a'])
        (Fields.cons roomKey
          (.obj (Fields.cons identKey (.str ['r']) .nil)) .nil)).get
        roomIdKey = none :=
  ⟨by decide, by decide, by decide, by decide,
    (spec_decoration_frame
      [(devicePre ++ ['a'],
          Fields.cons identKey (.str ['a'])
            (Fields.cons roomIdKey (.str ['r']) .nil)),
       (roomPre ++ ['r'], Fields.cons identKey (.str ['r']) .nil)]
      [(devicePre ++ ['a'],
          Fields.cons identKey (.str ['a'])
            (Fields.cons roomIdKey (.str ['r']) .nil)),
       (roomPre ++ ['r'], Fields.cons identKey (.str ['r']) .nil)]
      ['a'] ['r']
      (Fields.cons identKey (.str ['a'])
        (Fields.cons roomIdKey (.str ['r']) .nil))
      (Fields.cons identKey (.str ['a'])
        (Fields.cons roomKey
          (.obj (Fields.cons identKey (.str ['r']) .nil)) .nil))
      (by decide) (by decide) (by decide) (by decide)).1,
    (spec_decoration_frame
      [(devicePre ++ ['a'],
          Fields.cons identKey (.str ['a'])
            (Fields.cons roomIdKey (.str ['r']) .nil)),
       (roomPre ++ ['r'], Fields.cons identKey (.str ['r']) .nil)]
      [(devicePre ++ ['a'],
          Fields.cons identKey (.str ['a'])
            (Fields.cons roomIdKey (.str ['r']) .nil)),
       (roomPre ++ ['r'], Fields.cons identKey (.str ['r']) .nil)]
      ['a'] ['r']
      (Fields.cons identKey (.str ['a'])
        (Fields.cons roomIdKey (.str ['r']) .nil))
      (Fields.cons identKey (.str ['a'])
        (Fields.cons roomKey
          (.obj (Fields.cons identKey (.str ['r']) .nil)) .nil))
      (by decide) (by decide) (by decide) (by decide)).2.2.2⟩

/-- C3: Decoration round-trip — in a store holding exactly room `R1` and
device `D1` whose `room_identifier` is `R1`'s identifier,
`decorate_with_room` on `D1` yields a record whose `room` field is `R1`
and which has no `room_identifier` field, and `decorate_with_devices` on
`R1` yields `R1` with a `devices` field holding exactly `D1` with its
`room_identifier` field removed; neither touches the store. -/
theorem spec_decoration_roundtrip (rid did : Str) (R1 D1 : Fields)
    (hR : R1.get identKey = some (.str rid))
    (hD : D1.get roomIdKey = some (.str rid))
    (hnd : D1.keys.Nodup) :
    (∃ D1r, decorate_with_room
        [(roomPre ++ rid, R1), (devicePre ++ did, D1)] roomPre D1
        = some (D1r, [(roomPre ++ rid, R1), (devicePre ++ did, D1)])
      ∧ D1r.get roomKey = some (.obj R1)
      ∧ D1r.get roomIdKey = none)
    ∧ (∃ D1s, D1.del roomIdKey = some D1s
      ∧ decorate_with_devices
          [(roomPre ++ rid, R1), (devicePre ++ did, D1)] devicePre R1
        = some (R1.set devicesKey (.objlist (.cons D1s .nil)),
            [(roomPre ++ rid, R1), (devicePre ++ did, D1)])
      ∧ (R1.set devicesKey (.objlist (.cons D1s .nil))).get devicesKey
        = some (.objlist (.cons D1s .nil))) := by
  have hfindR : Repository.find
      [(roomPre ++ rid, R1), (devicePre ++ did, D1)] roomPre rid
      = some R1 := by
    simp [Repository.find, storeGet]
  constructor
  · have hspec := decorate_with_room_spec
      [(roomPre ++ rid, R1), (devicePre ++ did, D1)] roomPre D1 rid hD
    simp only [hfindR] at hspec
    have hget2 : (D1.set roomKey (.obj R1)).get roomIdKey
        = some (.str rid) := by
      rw [Fields.get_set_ne D1 roomKey roomIdKey (.obj R1) (by decide)]
      exact hD
    cases hdel : (D1.set roomKey (.obj R1)).del roomIdKey with
    | none =>
      rw [Fields.del_eq_none_iff, hget2] at hdel
      exact Option.noConfusion hdel
    | some D1r =>
      rw [hdel] at hspec
      refine ⟨D1r, hspec, ?_, ?_⟩
      · rw [Fields.get_del_ne _ roomIdKey roomKey D1r (by decide) hdel]
        exact Fields.get_set_self D1 roomKey (.obj R1)
      · exact Fields.get_del_self _ roomIdKey D1r
          (Fields.keys_set_nodup D1 roomKey (.obj R1) hnd) hdel
  · have hfb : Repository.find_by
        [(roomPre ++ rid, R1), (devicePre ++ did, D1)] devicePre
        roomIdKey (.str rid) = some [D1] := by
      rw [Repository.find_by, find_all_device_pair rid did R1 D1]
      simp [filterByField, hD]
    cases hdel2 : D1.del roomIdKey with
    | none =>
      rw [Fields.del_eq_none_iff, hD] at hdel2
      exact Option.noConfusion hdel2
    | some D1s =>
      refine ⟨D1s, rfl, ?_, Fields.get_set_self R1 devicesKey _⟩
      simp only [decorate_with_devices, hR, hfb, stripRoomId, hdel2,
        toRecList]

theorem spec_decoration_roundtrip_witness :
    (Fields.cons identKey (.str ['r']) .nil).get identKey
      = some (.str ['r'])
    ∧ (Fields.cons identKey (.str ['d'])
        (Fields.cons roomIdKey (.str ['r']) .nil)).get roomIdKey
      = some (.str ['r'])
    ∧ (Fields.cons identKey (.str ['d'])
        (Fields.cons roomIdKey (.str ['r']) .nil)).keys.Nodup
    ∧ ((∃ D1r, decorate_with_room
          [(roomPre ++ ['r'], Fields.cons identKey (.str ['r']) .nil),
           (devicePre ++ ['d'],
              Fields.cons identKey (.str ['d'])
                (Fields.cons roomIdKey (.str ['r']) .nil))] roomPre
          (Fields.cons identKey (.str ['d'])
            (Fields.cons roomIdKey (.str ['r']) .nil))
          = some (D1r,
              [(roomPre ++ ['r'], Fields.cons identKey (.str ['r']) .nil),
               (devicePre ++ ['d'],
                  Fields.cons identKey (.str ['d'])
                    (Fields.cons roomIdKey (.str ['r']) .nil))])
        ∧ D1r.get roomKey
            = some (.obj (Fields.cons identKey (.str ['r']) .nil))
        ∧ D1r.get roomIdKey = none)
      ∧ (∃ D1s, (Fields.cons identKey (.str ['d'])
            (Fields.cons roomIdKey (.str ['r']) .nil)).del roomIdKey
          = some D1s
        ∧ decorate_with_devices
            [(roomPre ++ ['r'], Fields.cons identKey (.str ['r']) .nil),
             (devicePre ++ ['d'],
                Fields.cons identKey (.str ['d'])
                  (Fields.cons roomIdKey (.str ['r']) .nil))] devicePre
            (Fields.cons identKey (.str ['r']) .nil)
          = some ((Fields.cons identKey (.str ['r']) .nil).set devicesKey
                (.objlist (.cons D1s .nil)),
              [(roomPre ++ ['r'], Fields.cons identKey (.str ['r']) .nil),
               (devicePre ++ ['d'],
                  Fields.cons identKey (.str ['d'])
                    (Fields.cons roomIdKey (.str ['r']) .nil))])
        ∧ ((Fields.cons identKey (.str ['r']) .nil).set devicesKey
              (.objlist (.cons D1s .nil))).get devicesKey
          = some (.objlist (.cons D1s .nil)))) :=
  ⟨by decide, by decide, by decide,
    spec_decoration_roundtrip ['r'] ['d']
      (Fields.cons identKey (.str ['r']) .nil)
      (Fields.cons identKey (.str ['d'])
        (Fields.cons roomIdKey (.str ['r']) .nil))
      (by decide) (by decide) (by decide)⟩

/-- C6: Room deletion guard — in a store holding exactly room `R1` and a
device `D1` referencing it, deleting the room is rejected with 400 and
the store is unchanged; deleting the device succeeds with 204, and on the
resulting store deleting the room succeeds with 204 and removes it. -/
theorem spec_room_deletion_guard (rid did : Str) (R1 D1 : Fields)
    (hD : D1.get roomIdKey = some (.str rid)) :
    Room.delete [(roomPre ++ rid, R1), (devicePre ++ did, D1)] rid
      = some (400, [(roomPre ++ rid, R1), (devicePre ++ did, D1)])
    ∧ Device.delete [(roomPre ++ rid, R1), (devicePre ++ did, D1)] did
      = some (204, [(roomPre ++ rid, R1)])
    ∧ Room.delete [(roomPre ++ rid, R1)] rid = some (204, [])
    ∧ Repository.find ([] : Store) roomPre rid = none := by
  have hne : roomPre ++ rid ≠ devicePre ++ did :=
    roomPre_append_ne_devicePre_append rid did
  have hfindR : Repository.find
      [(roomPre ++ rid, R1), (devicePre ++ did, D1)] roomPre rid
      = some R1 := by
    simp [Repository.find, storeGet]
  have hfb : Repository.find_by
      [(roomPre ++ rid, R1), (devicePre ++ did, D1)] devicePre
      roomIdKey (.str rid) = some [D1] := by
    rw [Repository.find_by, find_all_device_pair rid did R1 D1]
    simp [filterByField, hD]
  refine ⟨?_, ?_, ?_, rfl⟩
  · simp [Room.delete, hfindR, hfb]
  · simp [Device.delete, Repository.find, Repository.delete, storeGet,
      storeDel, hne]
  · have hfb2 : Repository.find_by [(roomPre ++ rid, R1)] devicePre
        roomIdKey (.str rid) = some [] := by
      rw [Repository.find_by, find_all_single_room rid R1]
      rfl
    simp [Room.delete, Repository.find, Repository.delete, storeGet,
      storeDel, hfb2]

theorem spec_room_deletion_guard_witness :
    (Fields.cons identKey (.str ['d'])
        (Fields.cons roomIdKey (.str ['r']) .nil)).get roomIdKey
      = some (.str ['r'])
    ∧ (Room.delete
        [(roomPre ++ ['r'], Fields.cons identKey (.str ['r']) .nil),
         (devicePre ++ ['d'],
            Fields.cons identKey (.str ['d'])
              (Fields.cons roomIdKey (.str ['r']) .nil))] ['r']
      = some (400,
          [(roomPre ++ ['r'], Fields.cons identKey (.str ['r']) .nil),
           (devicePre ++ ['d'],
              Fields.cons identKey (.str ['d'])
                (Fields.cons roomIdKey (.str ['r']) .nil))])
    ∧ Device.delete
        [(roomPre ++ ['r'], Fields.cons identKey (.str ['r']) .nil),
         (devicePre ++ ['d'],
            Fields.cons identKey (.str ['d'])
              (Fields.cons roomIdKey (.str ['r']) .nil))] ['d']
      = some (204,
          [(roomPre ++ ['r'], Fields.cons identKey (.str ['r']) .nil)])
    ∧ Room.delete
        [(roomPre ++ ['r'], Fields.cons identKey (.str ['r']) .nil)] ['r']
      = some (204, [])
    ∧ Repository.find ([] : Store) roomPre ['r'] = none) :=
  ⟨by decide,
    spec_room_deletion_guard ['r'] ['d']
      (Fields.cons identKey (.str ['r']) .nil)
      (Fields.cons identKey (.str ['d'])
        (Fields.cons roomIdKey (.str ['r']) .nil))
      (by decide)⟩
